import Mathlib

/-!
# Verification of the food-scale-detector core

A shallow embedding in Lean 4 of the weight/unit/session core of the
`food-scale-detector` repository, together with theorems checking the
natural-language specification against the code.

Numeric values (JavaScript `number`s) are embedded as exact rationals `ℚ`;
the arithmetic structure of every function is translated directly from the
TypeScript sources:
* `src/backend/src/utils/conversions.ts` (provided as `src/unnamed/part_007`)
  — namespace `Conversions`;
* `src/backend/src/services/OCRService.ts` — namespace `OCR`;
* `src/backend/src/services/SessionService.ts` and the
  `PUT /api/session/:sessionId/weight` handler of
  `src/backend/src/routes/api.ts` — namespace `Session`.

External collaborators (Tesseract, sharp, Redis, the USDA nutrition API)
are modelled as inputs: recognizer output and pre-computed regex matches are
data fed to the functions, and the Redis-backed session blob becomes an
explicit `MealSession` value threaded through the operations.
-/

namespace Conversions

/-- The weight units of `conversions.ts` (`type WeightUnit = 'g' | 'oz' | 'lb'`). -/
inductive WeightUnit where
  | g
  | oz
  | lb
deriving DecidableEq, Repr

/-- JavaScript `Math.round`: round half toward positive infinity. -/
def jsRound (x : ℚ) : ℤ := ⌊x + 1 / 2⌋

/-- `Math.round(x * 100) / 100`, the 2-decimal rounding used throughout
`conversions.ts`. -/
def round2 (x : ℚ) : ℚ := (jsRound (x * 100) : ℚ) / 100

/-- `convertToGrams` from `conversions.ts`: grams pass through, ounces are
multiplied by 28.3495, pounds by 453.592. -/
def convertToGrams (weight : ℚ) (unit : WeightUnit) : ℚ :=
  match unit with
  | .g => weight
  | .oz => weight * 28.3495
  | .lb => weight * 453.592

/-- `convertFromGrams` from `conversions.ts`: the inverse scaling of
`convertToGrams`. -/
def convertFromGrams (weightInGrams : ℚ) (targetUnit : WeightUnit) : ℚ :=
  match targetUnit with
  | .g => weightInGrams
  | .oz => weightInGrams / 28.3495
  | .lb => weightInGrams / 453.592

/-- `convertWeight` from `conversions.ts`: identity when the units agree,
otherwise route through grams. -/
def convertWeight (weight : ℚ) (fromUnit toUnit : WeightUnit) : ℚ :=
  if fromUnit = toUnit then weight
  else convertFromGrams (convertToGrams weight fromUnit) toUnit

/-- `getBestDisplayUnit` from `conversions.ts`: grams below 28.35 g, ounces
below 453.6 g, pounds otherwise. -/
def getBestDisplayUnit (weightInGrams : ℚ) : WeightUnit :=
  if weightInGrams < 28.35 then .g
  else if weightInGrams < 453.6 then .oz
  else .lb

/-- `calculateWeightDifference` from `conversions.ts`.  Converts both inputs
to grams, throws (modelled as `Except.error`) when the difference is not
positive, and otherwise returns the difference expressed in the display unit
picked by `getBestDisplayUnit`. -/
def calculateWeightDifference (currentWeight : ℚ) (currentUnit : WeightUnit)
    (previousWeight : ℚ) (previousUnit : WeightUnit) :
    Except String (ℚ × WeightUnit) :=
  let currentInGrams := convertToGrams currentWeight currentUnit
  let previousInGrams := convertToGrams previousWeight previousUnit
  let differenceInGrams := currentInGrams - previousInGrams
  if differenceInGrams ≤ 0 then
    .error "Current weight must be greater than previous weight"
  else
    let bestUnit := getBestDisplayUnit differenceInGrams
    .ok (convertFromGrams differenceInGrams bestUnit, bestUnit)

/-- `scaleNutritionValues` from `conversions.ts`.  The nutrition record
(`Record<string, number>`) is embedded as an association list; every entry is
multiplied by the gram-ratio of the two weights and rounded to 2 decimal
places.  The TypeScript unit parameters default to `'g'`; here callers pass
them explicitly. -/
def scaleNutritionValues (baseNutrition : List (String × ℚ))
    (baseWeight actualWeight : ℚ)
    (baseUnit actualUnit : WeightUnit) :
    List (String × ℚ) :=
  let baseWeightInGrams := convertToGrams baseWeight baseUnit
  let actualWeightInGrams := convertToGrams actualWeight actualUnit
  let ratio := actualWeightInGrams / baseWeightInGrams
  baseNutrition.map (fun p => (p.1, round2 (p.2 * ratio)))

end Conversions

namespace OCR

open Conversions (WeightUnit jsRound)

/-- `WeightReading` from `types/core.ts`: a parsed scale reading. -/
structure WeightReading where
  value : ℚ
  unit : WeightUnit
  confidence : ℚ
  rawText : String
deriving DecidableEq, Repr

/-- A bounding box of one recognized word (`OCRResult.words[].bbox`). -/
structure BBox where
  x0 : ℚ
  y0 : ℚ
  x1 : ℚ
  y1 : ℚ
deriving DecidableEq, Repr

/-- One recognized word of an `OCRResult`, with its word-level confidence. -/
structure OCRWord where
  text : String
  confidence : ℚ
  bbox : BBox
deriving DecidableEq, Repr

/-- One regex match produced by `text.matchAll(pattern)` over the three
`WEIGHT_PATTERNS` of `OCRService`.  `fullMatch` is `match[0]`, `numberStr`
the first capture group, `numberVal` its `parseFloat` value (`none` for
`NaN`), and `unitStr` the lowercased second capture group (`''` when the
pattern has no unit group).  The regex engine is an external collaborator,
so its matches are input data of the embedding. -/
structure RawMatch where
  fullMatch : String
  numberStr : String
  numberVal : Option ℚ
  unitStr : String
deriving DecidableEq, Repr

/-- The output of one `performOCR` pass (`OCRResult` plus the regex matches
of its `text` under the three `WEIGHT_PATTERNS`, in pattern order). -/
structure OCRPass where
  text : String
  confidence : ℚ
  words : List OCRWord
  regexMatches : List RawMatch
deriving DecidableEq, Repr

/-- `UNIT_MAPPINGS` from `OCRService`: the fixed alias table from unit
tokens to units. -/
def unitMappings (s : String) : Option WeightUnit :=
  if s = "g" ∨ s = "gram" ∨ s = "grams" then some .g
  else if s = "oz" ∨ s = "ounce" ∨ s = "ounces" then some .oz
  else if s = "lb" ∨ s = "lbs" ∨ s = "pound" ∨ s = "pounds" then some .lb
  else none

/-- `OCRService.MIN_CONFIDENCE_THRESHOLD`. -/
def minConfidenceThreshold : ℚ := 60

/-- `OCRService.HIGH_CONFIDENCE_THRESHOLD`. -/
def highConfidenceThreshold : ℚ := 80

/-- `needle` occurs as a contiguous sublist of `haystack` starting at the
front. -/
def prefixOf : List Char → List Char → Bool
  | [], _ => true
  | _ :: _, [] => false
  | a :: as, b :: bs => a = b && prefixOf as bs

/-- `needle` occurs as a contiguous sublist of `haystack` anywhere. -/
def subOf (needle : List Char) : List Char → Bool
  | [] => prefixOf needle []
  | b :: bs => prefixOf needle (b :: bs) || subOf needle bs

/-- JavaScript `String.prototype.includes`. -/
def strIncludes (s sub : String) : Bool := subOf sub.toList s.toList

/-- `OCRService.extractWeightFromText`, translated clause by clause: for
every regex match, reject non-numeric (`NaN`) and non-positive values;
resolve the unit token through `UNIT_MAPPINGS`, defaulting to grams; start
from the pass-level confidence, add 10 (capped at 100) when a mappable unit
token is present, subtract 20 (floored at 0) when the raw value is above
10000 or below 0.1, then average with the confidence of the first recognized
word that contains the number string and has positive confidence; finally
round the confidence and trim the matched text. -/
def extractWeightFromText (r : OCRPass) : List WeightReading :=
  r.regexMatches.filterMap fun m =>
    match m.numberVal with
    | none => none
    | some value =>
      if value ≤ 0 then none
      else
        let unit : WeightUnit :=
          if m.unitStr ≠ "" then
            match unitMappings m.unitStr with
            | some u => u
            | none => .g
          else .g
        let c1 : ℚ :=
          if m.unitStr ≠ "" ∧ (unitMappings m.unitStr).isSome then
            min 100 (r.confidence + 10)
          else r.confidence
        let c2 : ℚ :=
          if 10000 < value ∨ value < 1 / 10 then max 0 (c1 - 20) else c1
        let c3 : ℚ :=
          match r.words.find? (fun w =>
              strIncludes w.text m.numberStr && decide (0 < w.confidence)) with
          | some w => (c2 + w.confidence) / 2
          | none => c2
        some ⟨value, unit, (jsRound c3 : ℚ), m.fullMatch.trim⟩

/-- `OCRService.isReasonableWeight`: the per-unit plausibility windows
(grams 1–5000, ounces 0.1–176, pounds 0.01–11). -/
def isReasonableWeight (value : ℚ) (unit : WeightUnit) : Bool :=
  match unit with
  | .g => 1 ≤ value && value ≤ 5000
  | .oz => 1 / 10 ≤ value && value ≤ 176
  | .lb => 1 / 100 ≤ value && value ≤ 11

/-- The comparator passed to `Array.prototype.sort` in
`OCRService.selectBestWeight`: confidence is decisive when two candidates
differ by more than 10 points, then plausibility of (value, unit), then raw
confidence. -/
def compareWeights (a b : WeightReading) : ℚ :=
  if 10 < |a.confidence - b.confidence| then b.confidence - a.confidence
  else
    let aReasonable := isReasonableWeight a.value a.unit
    let bReasonable := isReasonableWeight b.value b.unit
    if aReasonable && !bReasonable then -1
    else if !aReasonable && bReasonable then 1
    else b.confidence - a.confidence

/-- Stable insertion of one element under a JavaScript-style comparator:
`x` goes before the first element it does not compare greater than. -/
def insertCmp (x : WeightReading) : List WeightReading → List WeightReading
  | [] => [x]
  | y :: ys => if compareWeights x y ≤ 0 then x :: y :: ys else y :: insertCmp x ys

/-- A stable comparator sort, modelling `Array.prototype.sort` (which is
required to be stable) with the `compareWeights` comparator. -/
def sortWeights : List WeightReading → List WeightReading
  | [] => []
  | x :: xs => insertCmp x (sortWeights xs)

/-- `OCRService.selectBestWeight`: sort by the comparator and take the first
element; `null` (here `none`) on the empty list. -/
def selectBestWeight (weights : List WeightReading) : Option WeightReading :=
  (sortWeights weights).head?

/-- One iteration of the retry loop of `OCRService.readScaleWeight`,
operating on the running `(bestWeight, bestConfidence)` pair.  The attempt
input is the outcome of `preprocessImage` + `performOCR` for one
preprocessing variant: `Except.error` models a thrown error, which the inner
`catch` turns into `continue`.  A pass whose confidence is below the minimum
threshold is skipped; otherwise the extracted candidates are selected from,
and the selection is recorded when it strictly beats the running best
confidence. -/
def stepAttempt (best : Option WeightReading × ℚ) (a : Except String OCRPass) :
    Option WeightReading × ℚ :=
  match a with
  | .error _ => best
  | .ok r =>
    if r.confidence < minConfidenceThreshold then best
    else
      match selectBestWeight (extractWeightFromText r) with
      | none => best
      | some w => if best.2 < w.confidence then (some w, w.confidence) else best

/-- The retry loop of `readScaleWeight` over the ordered preprocessing
attempts, with the early `break` once the running best confidence reaches
the high-confidence threshold. -/
def runAttempts (best : Option WeightReading × ℚ) :
    List (Except String OCRPass) → Option WeightReading × ℚ
  | [] => best
  | a :: rest =>
    let next := stepAttempt best a
    if highConfidenceThreshold ≤ next.2 then next else runAttempts next rest

/-- `OCRService.readScaleWeight`.  The input is the attempt ladder: an outer
`Except.error` models an irrecoverable processing error caught by the outer
`try`/`catch`; otherwise the list holds one outcome per preprocessing
variant.  The function is total: it returns the best recorded candidate, the
"unreadable" sentinel when none was recorded, or the error sentinel. -/
def readScaleWeight (input : Except String (List (Except String OCRPass))) :
    WeightReading :=
  match input with
  | .error e => ⟨0, .g, 0, "OCR Error: " ++ e⟩
  | .ok attempts =>
    match (runAttempts (none, 0) attempts).1 with
    | some w => w
    | none => ⟨0, .g, 0, "Unable to read scale display"⟩

end OCR

namespace Session

open Conversions (WeightUnit convertToGrams)

/-- `NutritionInfo` from `types/core.ts`. -/
structure NutritionInfo where
  calories : ℚ
  protein : ℚ
  carbohydrates : ℚ
  fat : ℚ
  fiber : ℚ
  sodium : ℚ
  sugar : ℚ
  saturatedFat : ℚ
  cholesterol : ℚ
  potassium : ℚ
deriving DecidableEq, Repr

/-- `FoodItem` from `types/core.ts`. -/
structure FoodItem where
  id : String
  name : String
  confidence : ℚ
  alternativeNames : List String
  category : String
deriving DecidableEq, Repr

/-- `MealComponent` from `types/core.ts`; the `Date` field is embedded as a
rational timestamp. -/
structure MealComponent where
  food : FoodItem
  weight : ℚ
  nutrition : NutritionInfo
  addedAt : ℚ
deriving DecidableEq, Repr

/-- `MealSession` from `types/core.ts`; `Date` fields are embedded as
rational timestamps. -/
structure MealSession where
  id : String
  components : List MealComponent
  totalWeight : ℚ
  previousWeight : ℚ
  createdAt : ℚ
  lastUpdated : ℚ
deriving DecidableEq, Repr

/-- `SessionService.createSession`: an empty session (the random id and the
creation time are inputs of the embedding; the Redis `setEx` TTL write is
the external store). -/
def createSession (id : String) (now : ℚ) : MealSession :=
  { id := id
    components := []
    totalWeight := 0
    previousWeight := 0
    createdAt := now
    lastUpdated := now }

/-- `SessionService.addIngredient` on a fetched session: append the
component, remember the old total as `previousWeight`, and add the
component's weight to `totalWeight`. -/
def addIngredient (s : MealSession) (ingredient : MealComponent) (now : ℚ) :
    MealSession :=
  let previousWeight := s.totalWeight
  let newTotalWeight := ingredient.weight + s.totalWeight
  { s with
    components := s.components ++ [ingredient]
    totalWeight := newTotalWeight
    previousWeight := previousWeight
    lastUpdated := now }

/-- The `PUT /api/session/:sessionId/weight` handler of `routes/api.ts`
(weight correction), on a fetched session.  `updatedNutrition` is the value
returned by the external `nutritionService.getNutritionData` call for the
corrected weight.  Guards, in handler order: the weight must be a positive
number; the session must have at least one ingredient; and when there is
more than one ingredient the corrected weight (in grams) must exceed
`totalWeight - lastIngredient.weight`.  A failed guard returns the
handler's error response and writes nothing back to the store. -/
def correctWeight (s : MealSession) (weight : ℚ) (unit : WeightUnit)
    (updatedNutrition : NutritionInfo) (now : ℚ) : Except String MealSession :=
  if weight ≤ 0 then .error "Weight must be a positive number"
  else
    match s.components.getLast? with
    | none => .error "Session has no ingredients to update weight for"
    | some lastIngredient =>
      let weightInGrams := convertToGrams weight unit
      if 1 < s.components.length ∧
          weightInGrams ≤ s.totalWeight - lastIngredient.weight then
        .error "Corrected weight must be greater than previous total weight"
      else
        let updatedIngredient :=
          { lastIngredient with weight := weightInGrams, nutrition := updatedNutrition }
        let updatedComponents := s.components.dropLast ++ [updatedIngredient]
        let newTotalWeight := (updatedComponents.map (fun c => c.weight)).sum
        .ok { s with
              components := updatedComponents
              totalWeight := newTotalWeight
              lastUpdated := now }

/-- The result record of `SessionService.calculateWeightDifference`
(`{difference, previousWeight, isValid, error?}`). -/
structure WeightDiffResult where
  difference : ℚ
  previousWeight : ℚ
  isValid : Bool
  error : Option String
deriving DecidableEq, Repr

/-- Modelled from the spec: `SessionService.calculateWeightDifference` is
invoked by the `POST /api/upload` handler and exercised by
`sequential-ingredients.test.ts`, but its definition is not among the
provided source files.  Following the spec's §4.5: `difference =
newTotalWeightGrams - session.totalWeight`; checked in order, the
difference must be greater than 0, at most 5000 g, and at least 1 g; any
violation yields `isValid = false` with a human-readable error; the
function mutates nothing (it only reads the session's recorded total). -/
def calculateWeightDifference (s : MealSession) (newWeight : ℚ) :
    WeightDiffResult :=
  let difference := newWeight - s.totalWeight
  if difference ≤ 0 then
    { difference := difference
      previousWeight := s.totalWeight
      isValid := false
      error := some "New weight must be greater than previous weight" }
  else if 5000 < difference then
    { difference := difference
      previousWeight := s.totalWeight
      isValid := false
      error := some "Weight increase seems too large, please verify the reading" }
  else if difference < 1 then
    { difference := difference
      previousWeight := s.totalWeight
      isValid := false
      error := some "Weight increase too small, minimum addition is 1g" }
  else
    { difference := difference
      previousWeight := s.totalWeight
      isValid := true
      error := none }

/-- The sessions reachable from `createSession` by `addIngredient` calls and
successful weight corrections — exactly the states the store can hold. -/
inductive Reachable : MealSession → Prop
  | create (id : String) (now : ℚ) : Reachable (createSession id now)
  | add {s : MealSession} (ingredient : MealComponent) (now : ℚ) :
      Reachable s → Reachable (addIngredient s ingredient now)
  | correct {s s' : MealSession} (weight : ℚ) (unit : WeightUnit)
      (updatedNutrition : NutritionInfo) (now : ℚ) :
      Reachable s → correctWeight s weight unit updatedNutrition now = .ok s' →
      Reachable s'

/-- The weight of the last component, 0 for an empty ledger. -/
def lastComponentWeight (s : MealSession) : ℚ :=
  match s.components.getLast? with
  | none => 0
  | some c => c.weight

/-- The §3 data-model invariant of `MealSession`. -/
def sessionInvariant (s : MealSession) : Prop :=
  s.totalWeight = (s.components.map (fun c => c.weight)).sum ∧
  s.previousWeight = s.totalWeight - lastComponentWeight s

end Session

namespace OCR

open Conversions (WeightUnit jsRound)

/-- The candidate construction exactly as §4.3 of the specification words
it, with the plausibility penalty applied when the value is outside
`[0.1, 10000]` measured in the candidate's **grams-equivalent**
(`convertToGrams value unit`), which is how the claim reads the sentence.
Kept separate from `extractWeightFromText` so the two can be compared. -/
def specCandidateGramsRange (r : OCRPass) (m : RawMatch) : Option WeightReading :=
  match m.numberVal with
  | none => none
  | some value =>
    if 0 < value then
      let unit : WeightUnit := (unitMappings m.unitStr).getD .g
      let afterUnitBoost : ℚ :=
        if (unitMappings m.unitStr).isSome then min 100 (r.confidence + 10)
        else r.confidence
      let afterRangePenalty : ℚ :=
        if Conversions.convertToGrams value unit < 1 / 10 ∨
            10000 < Conversions.convertToGrams value unit then
          max 0 (afterUnitBoost - 20)
        else afterUnitBoost
      let final : ℚ :=
        match r.words.find? (fun w =>
            strIncludes w.text m.numberStr && decide (0 < w.confidence)) with
        | some w => (afterRangePenalty + w.confidence) / 2
        | none => afterRangePenalty
      some ⟨value, unit, (jsRound final : ℚ), m.fullMatch.trim⟩
    else none

/-- The extractor as the claim states it (grams-equivalent range test). -/
def specExtractGramsRange (r : OCRPass) : List WeightReading :=
  r.regexMatches.filterMap (specCandidateGramsRange r)

/-- The candidate construction as §4.3 words it, amended in one place: the
plausibility penalty tests the raw matched value in the candidate's own
unit, not its grams-equivalent.  This is the spec-side formulation to be
compared with the source-side `extractWeightFromText`. -/
def specCandidate (r : OCRPass) (m : RawMatch) : Option WeightReading :=
  match m.numberVal with
  | none => none
  | some value =>
    if 0 < value then
      let unit : WeightUnit := (unitMappings m.unitStr).getD .g
      let afterUnitBoost : ℚ :=
        if (unitMappings m.unitStr).isSome then min 100 (r.confidence + 10)
        else r.confidence
      let afterRangePenalty : ℚ :=
        if value < 1 / 10 ∨ 10000 < value then max 0 (afterUnitBoost - 20)
        else afterUnitBoost
      let final : ℚ :=
        match r.words.find? (fun w =>
            strIncludes w.text m.numberStr && decide (0 < w.confidence)) with
        | some w => (afterRangePenalty + w.confidence) / 2
        | none => afterRangePenalty
      some ⟨value, unit, (jsRound final : ℚ), m.fullMatch.trim⟩
    else none

/-- The extractor as §4.3 words it, with the raw-value range test. -/
def specExtractWeights (r : OCRPass) : List WeightReading :=
  r.regexMatches.filterMap (specCandidate r)

/-- A preprocessing attempt that yields no candidate: it threw (and was
swallowed by the inner catch), its pass confidence was below the minimum
threshold, or its text parsed to no weight candidates. -/
def attemptYieldsNoCandidate : Except String OCRPass → Prop
  | .error _ => True
  | .ok r => r.confidence < minConfidenceThreshold ∨ extractWeightFromText r = []

end OCR

namespace Conversions

theorem convertToGrams_pos {w : ℚ} (u : WeightUnit) (hw : 0 < w) :
    0 < convertToGrams w u := by
  cases u <;> simp only [convertToGrams] <;> positivity

theorem convertToGrams_convertFromGrams (d : ℚ) (u : WeightUnit) :
    convertToGrams (convertFromGrams d u) u = d := by
  cases u <;> simp only [convertToGrams, convertFromGrams] <;>
    rw [div_mul_cancel₀] <;> norm_num

theorem jsRound_nonneg {x : ℚ} (hx : 0 ≤ x) : 0 ≤ jsRound x := by
  rw [jsRound]
  refine Int.le_floor.mpr ?_
  push_cast
  linarith

theorem round2_nonneg {x : ℚ} (hx : 0 ≤ x) : 0 ≤ round2 x := by
  rw [round2]
  have h : (0 : ℚ) ≤ (jsRound (x * 100) : ℚ) := by
    exact_mod_cast jsRound_nonneg (by positivity)
  positivity

end Conversions

/-- **C9.** For every weight value `x` and every pair of units `A`, `B`
drawn from `{g, oz, lb}`, converting `x` from `A` to `B` and then back from
`B` to `A` yields `x`.  In the exact-rational embedding the round trip is
exact, hence in particular within any floating tolerance. -/
theorem C9_unit_roundtrip (x : ℚ) (a b : Conversions.WeightUnit) :
    Conversions.convertWeight (Conversions.convertWeight x a b) b a = x := by
  cases a <;> cases b <;>
    simp [Conversions.convertWeight, Conversions.convertToGrams,
      Conversions.convertFromGrams] <;>
    field_simp

/-- **C10.** For every pair of weights, the conversions-utility
`calculateWeightDifference` throws (an `Except.error`, never a result)
exactly when the gram-equivalent difference is zero or negative; when the
difference `d` is positive it returns the difference expressed in the
display unit chosen from the gram magnitude of `d` — grams below 28.35 g,
ounces below 453.6 g, pounds otherwise — i.e. a value that converts back to
exactly `d` grams, rather than always `d` itself in grams. -/
theorem C10_weight_difference_display_unit (cw : ℚ) (cu : Conversions.WeightUnit)
    (pw : ℚ) (pu : Conversions.WeightUnit) :
    (Conversions.convertToGrams cw cu - Conversions.convertToGrams pw pu ≤ 0 →
      Conversions.calculateWeightDifference cw cu pw pu =
        .error "Current weight must be greater than previous weight") ∧
    (0 < Conversions.convertToGrams cw cu - Conversions.convertToGrams pw pu →
      (Conversions.calculateWeightDifference cw cu pw pu =
        .ok (Conversions.convertFromGrams
              (Conversions.convertToGrams cw cu - Conversions.convertToGrams pw pu)
              (Conversions.getBestDisplayUnit
                (Conversions.convertToGrams cw cu - Conversions.convertToGrams pw pu)),
             Conversions.getBestDisplayUnit
              (Conversions.convertToGrams cw cu - Conversions.convertToGrams pw pu)) ∧
       (∀ res unit, Conversions.calculateWeightDifference cw cu pw pu = .ok (res, unit) →
          Conversions.convertToGrams res unit =
            Conversions.convertToGrams cw cu - Conversions.convertToGrams pw pu) ∧
       (Conversions.convertToGrams cw cu - Conversions.convertToGrams pw pu < 28.35 →
          Conversions.getBestDisplayUnit
            (Conversions.convertToGrams cw cu - Conversions.convertToGrams pw pu) = .g) ∧
       (28.35 ≤ Conversions.convertToGrams cw cu - Conversions.convertToGrams pw pu →
        Conversions.convertToGrams cw cu - Conversions.convertToGrams pw pu < 453.6 →
          Conversions.getBestDisplayUnit
            (Conversions.convertToGrams cw cu - Conversions.convertToGrams pw pu) = .oz) ∧
       (453.6 ≤ Conversions.convertToGrams cw cu - Conversions.convertToGrams pw pu →
          Conversions.getBestDisplayUnit
            (Conversions.convertToGrams cw cu - Conversions.convertToGrams pw pu) = .lb))) := by
  set d := Conversions.convertToGrams cw cu - Conversions.convertToGrams pw pu with hd
  constructor
  · intro h
    simp only [Conversions.calculateWeightDifference, ← hd, if_pos h]
  · intro h
    refine ⟨?_, ?_, ?_, ?_, ?_⟩
    · simp only [Conversions.calculateWeightDifference, ← hd, if_neg (not_le.mpr h)]
    · intro res unit heq
      simp only [Conversions.calculateWeightDifference, ← hd, if_neg (not_le.mpr h)] at heq
      obtain ⟨h1, h2⟩ := Prod.mk.injEq .. ▸ (Except.ok.injEq _ _ ▸ heq)
      subst h2
      rw [← h1, Conversions.convertToGrams_convertFromGrams]
    · intro hlt
      simp only [Conversions.getBestDisplayUnit, if_pos hlt]
    · intro hge hlt
      simp only [Conversions.getBestDisplayUnit, if_neg (not_lt.mpr hge), if_pos hlt]
    · intro hge
      have h1 : ¬ d < 28.35 := by norm_num at hge ⊢; linarith
      have h2 : ¬ d < 453.6 := not_lt.mpr hge
      simp only [Conversions.getBestDisplayUnit, if_neg h1, if_neg h2]

/-- Witness for C10: a 100 g difference (200 g now, 100 g before) is
positive and is returned in ounces. -/
theorem C10_weight_difference_display_unit_witness :
    Conversions.calculateWeightDifference 200 .g 100 .g =
      .ok ((100 : ℚ) / 28.3495, .oz) := by
  have h := (C10_weight_difference_display_unit 200 .g 100 .g).2
  have hd : (0 : ℚ) < Conversions.convertToGrams 200 .g - Conversions.convertToGrams 100 .g := by
    simp [Conversions.convertToGrams]; norm_num
  have hu : Conversions.getBestDisplayUnit
      (Conversions.convertToGrams 200 .g - Conversions.convertToGrams 100 .g) = .oz := by
    refine (h hd).2.2.2.1 ?_ ?_ <;> simp [Conversions.convertToGrams] <;> norm_num
  have := (h hd).1
  rw [hu] at this
  rw [this]
  simp only [Except.ok.injEq, Prod.mk.injEq]
  norm_num [Conversions.convertToGrams, Conversions.convertFromGrams]

/-- **C2.** (spec-modelled) For every session with recorded total `W` and
proposed new total `N`, `SessionService.calculateWeightDifference` computes
`difference = N - W` and reports `previousWeight = W`; the checks run in
order — the difference must be positive, at most 5000 g, at least 1 g — and
any violation yields `isValid = false` with the corresponding human-readable
error instead of an exception (the embedding is a total function), while a
difference in `[1, 5000]` validates.  The function returns only a result
record: the session value is not part of the output, so no mutation occurs. -/
theorem C2_calculate_weight_difference (s : Session.MealSession) (n : ℚ) :
    (Session.calculateWeightDifference s n).difference = n - s.totalWeight ∧
    (Session.calculateWeightDifference s n).previousWeight = s.totalWeight ∧
    (n - s.totalWeight ≤ 0 →
      (Session.calculateWeightDifference s n).isValid = false ∧
      (Session.calculateWeightDifference s n).error =
        some "New weight must be greater than previous weight") ∧
    (0 < n - s.totalWeight → 5000 < n - s.totalWeight →
      (Session.calculateWeightDifference s n).isValid = false ∧
      (Session.calculateWeightDifference s n).error =
        some "Weight increase seems too large, please verify the reading") ∧
    (0 < n - s.totalWeight → n - s.totalWeight ≤ 5000 → n - s.totalWeight < 1 →
      (Session.calculateWeightDifference s n).isValid = false ∧
      (Session.calculateWeightDifference s n).error =
        some "Weight increase too small, minimum addition is 1g") ∧
    (0 < n - s.totalWeight → n - s.totalWeight ≤ 5000 → 1 ≤ n - s.totalWeight →
      (Session.calculateWeightDifference s n).isValid = true ∧
      (Session.calculateWeightDifference s n).error = none) := by
  simp only [Session.calculateWeightDifference]
  split_ifs with h1 h2 h3 <;>
    refine ⟨rfl, rfl, ?_, ?_, ?_, ?_⟩ <;> intros <;>
    first
      | exact ⟨rfl, rfl⟩
      | (exfalso; linarith)

/-- Witness for C2: with 100 g recorded and 250 g proposed, the difference
150 g is valid; with 80 g proposed, the monotonicity error is reported. -/
theorem C2_calculate_weight_difference_witness :
    ((Session.calculateWeightDifference ⟨"s", [], 100, 0, 0, 0⟩ 250).isValid = true ∧
     (Session.calculateWeightDifference ⟨"s", [], 100, 0, 0, 0⟩ 250).error = none) ∧
    ((Session.calculateWeightDifference ⟨"s", [], 100, 0, 0, 0⟩ 80).isValid = false ∧
     (Session.calculateWeightDifference ⟨"s", [], 100, 0, 0, 0⟩ 80).error =
       some "New weight must be greater than previous weight") :=
  ⟨(C2_calculate_weight_difference ⟨"s", [], 100, 0, 0, 0⟩ 250).2.2.2.2.2
      (by norm_num) (by norm_num) (by norm_num),
   (C2_calculate_weight_difference ⟨"s", [], 100, 0, 0, 0⟩ 80).2.2.1
      (by norm_num)⟩

/-- **C7 counterexample.** The claim says whole-unit fields such as
`calories` are rounded to an integer; `scaleNutritionValues` rounds every
field to 2 decimal places.  Scaling calories 150 from base weight 100 g to
actual weight 150.5 g produces 225.75 — not the integer 226 that
`Math.round` (here `jsRound`) would give. -/
theorem C7_counterexample_no_integer_rounding :
    Conversions.scaleNutritionValues [("calories", 150)] 100 (150.5) .g .g =
      [("calories", (225.75 : ℚ))] ∧
    Conversions.jsRound (150 * (150.5 / 100)) = 226 ∧
    ((225.75 : ℚ) ≠ ((226 : ℤ) : ℚ)) := by
  refine ⟨?_, ?_, by norm_num⟩
  · simp only [Conversions.scaleNutritionValues, Conversions.convertToGrams,
      Conversions.round2, Conversions.jsRound, List.map]
    norm_num
  · rw [Conversions.jsRound]
    norm_num

namespace Session

theorem dropLast_append_of_getLast? {l : List MealComponent} {c : MealComponent}
    (h : l.getLast? = some c) : l.dropLast ++ [c] = l := by
  have hne : l ≠ [] := by
    intro hnil
    rw [hnil] at h
    simp at h
  have hlast : l.getLast hne = c := by
    have := List.getLast?_eq_getLast l hne
    rw [h] at this
    exact (Option.some.injEq _ _ ▸ this).symm
  rw [← hlast]
  exact List.dropLast_append_getLast hne

theorem sum_weights_of_getLast? {l : List MealComponent} {c : MealComponent}
    (h : l.getLast? = some c) :
    (l.map (fun x => x.weight)).sum =
      (l.dropLast.map (fun x => x.weight)).sum + c.weight := by
  conv_lhs => rw [← dropLast_append_of_getLast? h]
  simp

theorem addIngredient_invariant {s : MealSession} (c : MealComponent) (now : ℚ)
    (h : sessionInvariant s) : sessionInvariant (addIngredient s c now) := by
  obtain ⟨h1, h2⟩ := h
  constructor
  · simp only [addIngredient, List.map_append, List.sum_append, List.map_cons,
      List.map_nil, List.sum_cons, List.sum_nil, h1]
    ring
  · simp only [addIngredient, lastComponentWeight, List.getLast?_concat]
    ring

theorem correctWeight_invariant {s s' : MealSession} {w : ℚ} {u : Conversions.WeightUnit}
    {n : NutritionInfo} {t : ℚ} (h : sessionInvariant s)
    (heq : correctWeight s w u n t = .ok s') : sessionInvariant s' := by
  obtain ⟨h1, h2⟩ := h
  rw [correctWeight] at heq
  split_ifs at heq with hw
  rcases hlast : s.components.getLast? with _ | last
  · rw [hlast] at heq
    simp at heq
  · rw [hlast] at heq
    simp only at heq
    split_ifs at heq with hguard
    simp only [Except.ok.injEq] at heq
    subst heq
    constructor
    · rfl
    · simp only [sessionInvariant, lastComponentWeight, List.getLast?_concat,
        List.map_append, List.sum_append, List.map_cons, List.map_nil,
        List.sum_cons, List.sum_nil, add_zero]
      have hs : s.previousWeight = (s.components.dropLast.map (fun x => x.weight)).sum := by
        rw [h2, lastComponentWeight, hlast, h1, sum_weights_of_getLast? hlast]
        ring
      rw [hs]
      ring

theorem foldl_addIngredient_totalWeight (adds : List (MealComponent × ℚ))
    (s : MealSession) :
    (adds.foldl (fun t p => addIngredient t p.1 p.2) s).totalWeight =
      s.totalWeight + (adds.map (fun p => p.1.weight)).sum := by
  induction adds generalizing s with
  | nil => simp
  | cons a rest ih =>
    rw [List.foldl_cons, ih]
    simp only [List.map_cons, List.sum_cons, addIngredient]
    ring

end Session

/-- **C1.** Every session reachable from `createSession` by `addIngredient`
calls and (successful) weight corrections satisfies the ledger invariant:
`totalWeight` is the sum of the components' weights and `previousWeight` is
`totalWeight` minus the last component's weight (0 when there are no
components).  Moreover, after `N` `addIngredient` calls from a fresh
session, `totalWeight` is the sum of the `N` added weights, and
`previousWeight` after the `N`-th addition equals the `totalWeight` recorded
before it. -/
theorem C1_session_ledger :
    (∀ s : Session.MealSession, Session.Reachable s → Session.sessionInvariant s) ∧
    (∀ (id : String) (t0 : ℚ) (adds : List (Session.MealComponent × ℚ)),
      (adds.foldl (fun t p => Session.addIngredient t p.1 p.2)
          (Session.createSession id t0)).totalWeight =
        (adds.map (fun p => p.1.weight)).sum) ∧
    (∀ (id : String) (t0 : ℚ) (adds : List (Session.MealComponent × ℚ))
        (c : Session.MealComponent) (tn : ℚ),
      ((adds ++ [(c, tn)]).foldl (fun t p => Session.addIngredient t p.1 p.2)
          (Session.createSession id t0)).previousWeight =
        (adds.foldl (fun t p => Session.addIngredient t p.1 p.2)
          (Session.createSession id t0)).totalWeight) := by
  refine ⟨?_, ?_, ?_⟩
  · intro s h
    induction h with
    | create id now =>
      constructor <;>
        simp [Session.createSession, Session.lastComponentWeight]
    | add ing now _ ih => exact Session.addIngredient_invariant ing now ih
    | correct w u n now _ heq ih => exact Session.correctWeight_invariant ih heq
  · intro id t0 adds
    rw [Session.foldl_addIngredient_totalWeight]
    simp [Session.createSession]
  · intro id t0 adds c tn
    rw [List.foldl_append]
    rfl

/-- Witness for C1: one addition to a fresh session is reachable and
satisfies the invariant. -/
theorem C1_session_ledger_witness :
    Session.sessionInvariant
      (Session.addIngredient (Session.createSession "s" 0)
        ⟨⟨"f1", "Apple", 1, [], "fruit"⟩, 100, ⟨52, 1, 14, 1, 2, 1, 10, 0, 0, 107⟩, 0⟩ 0) :=
  C1_session_ledger.1 _
    (Session.Reachable.add _ 0 (Session.Reachable.create "s" 0))

/-- **C7 (amended).** For every nutrition vector and pair of positive
weights, `scaleNutritionValues` multiplies every field by
`actualWeight / baseWeight` (after converting both to grams) and rounds
every field — including whole-unit fields such as calories, sodium and
potassium — to 2 decimal places, and never produces a negative output field
from non-negative input fields.  (The later weight correction recomputes
nutrition through the external nutrition provider, not through this
function, so no single-recalculation-path statement is made.) -/
theorem C7_scale_nutrition (entries : List (String × ℚ)) (bw aw : ℚ)
    (bu au : Conversions.WeightUnit) (hbw : 0 < bw) (haw : 0 < aw) :
    Conversions.scaleNutritionValues entries bw aw bu au =
      entries.map (fun p => (p.1,
        Conversions.round2 (p.2 *
          (Conversions.convertToGrams aw au / Conversions.convertToGrams bw bu)))) ∧
    ((∀ p ∈ entries, 0 ≤ p.2) →
      ∀ q ∈ Conversions.scaleNutritionValues entries bw aw bu au, 0 ≤ q.2) := by
  constructor
  · rfl
  · intro hnn q hq
    simp only [Conversions.scaleNutritionValues, List.mem_map] at hq
    obtain ⟨p, hp, rfl⟩ := hq
    refine Conversions.round2_nonneg ?_
    have h1 : 0 ≤ p.2 := hnn p hp
    have h2 : 0 < Conversions.convertToGrams aw au / Conversions.convertToGrams bw bu :=
      div_pos (Conversions.convertToGrams_pos au haw) (Conversions.convertToGrams_pos bu hbw)
    exact mul_nonneg h1 h2.le

/-- Witness for C7 (amended): doubling the weight of a 150-calorie entry. -/
theorem C7_scale_nutrition_witness :
    Conversions.scaleNutritionValues [("calories", 150)] 100 200 .g .g =
      [("calories",
        Conversions.round2 (150 *
          (Conversions.convertToGrams 200 .g / Conversions.convertToGrams 100 .g)))] :=
  (C7_scale_nutrition [("calories", 150)] 100 200 .g .g
    (by norm_num) (by norm_num)).1

/-- **C8.** On a session whose recorded `totalWeight` is the sum of its
components' weights and which has a last component: the weight-correction
handler rejects (with a validation error and no mutation) any corrected
weight whose gram value does not exceed the sum of the other components'
weights when there is more than one component; and on success it replaces
only the last component's weight (with the gram value) and nutrition (with
the externally recomputed vector), recomputes `totalWeight` as the sum over
all components, and leaves everything else — including the other components
and `previousWeight` — unchanged. -/
theorem C8_correct_weight (s : Session.MealSession) (last : Session.MealComponent)
    (w : ℚ) (u : Conversions.WeightUnit) (n : Session.NutritionInfo) (t : ℚ)
    (hlast : s.components.getLast? = some last)
    (hsum : s.totalWeight = (s.components.map (fun c => c.weight)).sum) :
    (0 < w → 1 < s.components.length →
      Conversions.convertToGrams w u ≤
        (s.components.dropLast.map (fun c => c.weight)).sum →
      Session.correctWeight s w u n t =
        .error "Corrected weight must be greater than previous total weight") ∧
    (0 < w →
     (1 < s.components.length →
        (s.components.dropLast.map (fun c => c.weight)).sum <
          Conversions.convertToGrams w u) →
      Session.correctWeight s w u n t = .ok
        { s with
          components := s.components.dropLast ++
            [{ last with weight := Conversions.convertToGrams w u, nutrition := n }]
          totalWeight := (s.components.dropLast.map (fun c => c.weight)).sum +
            Conversions.convertToGrams w u
          lastUpdated := t }) := by
  have hsum' : s.totalWeight =
      (s.components.dropLast.map (fun c => c.weight)).sum + last.weight :=
    hsum.trans (Session.sum_weights_of_getLast? hlast)
  constructor
  · intro hw hlen hle
    rw [Session.correctWeight, if_neg (not_le.mpr hw), hlast]
    simp only
    rw [if_pos ⟨hlen, by rw [hsum']; linarith⟩]
  · intro hw himp
    rw [Session.correctWeight, if_neg (not_le.mpr hw), hlast]
    simp only
    rw [if_neg]
    · simp only [Except.ok.injEq]
      congr 1
      simp [List.sum_append]
    · rintro ⟨hlen, hle⟩
      have := himp hlen
      rw [hsum'] at hle
      linarith

/-- Witness for C8: in a two-component session (100 g + 150 g), correcting
the last weight to 120 g succeeds (120 > 100), replaces only the last
component and recomputes the total to 220 g, while a 90 g correction is
rejected. -/
theorem C8_correct_weight_witness :
    (Session.correctWeight
        ⟨"s",
          [⟨⟨"f1", "Apple", 1, [], "fruit"⟩, 100, ⟨0, 0, 0, 0, 0, 0, 0, 0, 0, 0⟩, 0⟩,
           ⟨⟨"f2", "Banana", 1, [], "fruit"⟩, 150, ⟨0, 0, 0, 0, 0, 0, 0, 0, 0, 0⟩, 0⟩],
          250, 100, 0, 0⟩ 90 .g ⟨1, 1, 1, 1, 1, 1, 1, 1, 1, 1⟩ 7 =
      .error "Corrected weight must be greater than previous total weight") ∧
    (Session.correctWeight
        ⟨"s",
          [⟨⟨"f1", "Apple", 1, [], "fruit"⟩, 100, ⟨0, 0, 0, 0, 0, 0, 0, 0, 0, 0⟩, 0⟩,
           ⟨⟨"f2", "Banana", 1, [], "fruit"⟩, 150, ⟨0, 0, 0, 0, 0, 0, 0, 0, 0, 0⟩, 0⟩],
          250, 100, 0, 0⟩ 120 .g ⟨1, 1, 1, 1, 1, 1, 1, 1, 1, 1⟩ 7 =
      .ok
        ⟨"s",
          [⟨⟨"f1", "Apple", 1, [], "fruit"⟩, 100, ⟨0, 0, 0, 0, 0, 0, 0, 0, 0, 0⟩, 0⟩,
           ⟨⟨"f2", "Banana", 1, [], "fruit"⟩, 120, ⟨1, 1, 1, 1, 1, 1, 1, 1, 1, 1⟩, 0⟩],
          220, 100, 0, 7⟩) := by
  have hl :
      (Session.MealSession.mk "s"
        [⟨⟨"f1", "Apple", 1, [], "fruit"⟩, 100, ⟨0, 0, 0, 0, 0, 0, 0, 0, 0, 0⟩, 0⟩,
         ⟨⟨"f2", "Banana", 1, [], "fruit"⟩, 150, ⟨0, 0, 0, 0, 0, 0, 0, 0, 0, 0⟩, 0⟩]
        250 100 0 0).components.getLast? =
      some ⟨⟨"f2", "Banana", 1, [], "fruit"⟩, 150, ⟨0, 0, 0, 0, 0, 0, 0, 0, 0, 0⟩, 0⟩ := rfl
  have hs :
      (Session.MealSession.mk "s"
        [⟨⟨"f1", "Apple", 1, [], "fruit"⟩, 100, ⟨0, 0, 0, 0, 0, 0, 0, 0, 0, 0⟩, 0⟩,
         ⟨⟨"f2", "Banana", 1, [], "fruit"⟩, 150, ⟨0, 0, 0, 0, 0, 0, 0, 0, 0, 0⟩, 0⟩]
        250 100 0 0).totalWeight =
      ((Session.MealSession.mk "s"
        [⟨⟨"f1", "Apple", 1, [], "fruit"⟩, 100, ⟨0, 0, 0, 0, 0, 0, 0, 0, 0, 0⟩, 0⟩,
         ⟨⟨"f2", "Banana", 1, [], "fruit"⟩, 150, ⟨0, 0, 0, 0, 0, 0, 0, 0, 0, 0⟩, 0⟩]
        250 100 0 0).components.map (fun c => c.weight)).sum := by
    simp
    norm_num
  constructor
  · refine (C8_correct_weight _ _ 90 .g ⟨1, 1, 1, 1, 1, 1, 1, 1, 1, 1⟩ 7 hl hs).1
      (by norm_num) (by norm_num) ?_
    simp [Conversions.convertToGrams]
    norm_num
  · have h := (C8_correct_weight _ _ 120 .g ⟨1, 1, 1, 1, 1, 1, 1, 1, 1, 1⟩ 7 hl hs).2
      (by norm_num) ?_
    · rw [h]
      simp [Conversions.convertToGrams]
      norm_num
    · intro
      simp [Conversions.convertToGrams]
      norm_num

namespace OCR

theorem stepAttempt_of_noCandidate {best : Option WeightReading × ℚ}
    {a : Except String OCRPass} (h : attemptYieldsNoCandidate a) :
    stepAttempt best a = best := by
  cases a with
  | error e => rfl
  | ok r =>
    simp only [attemptYieldsNoCandidate] at h
    rcases h with h | h
    · simp only [stepAttempt, if_pos h]
    · simp only [stepAttempt, h, selectBestWeight, sortWeights, List.head?_nil]
      split_ifs <;> rfl

theorem runAttempts_of_noCandidate {attempts : List (Except String OCRPass)}
    (h : ∀ a ∈ attempts, attemptYieldsNoCandidate a) :
    runAttempts (none, 0) attempts = (none, 0) := by
  induction attempts with
  | nil => rfl
  | cons a rest ih =>
    have hs : stepAttempt (none, 0) a = (none, 0) :=
      stepAttempt_of_noCandidate (h a (List.mem_cons_self a rest))
    simp only [runAttempts, hs]
    rw [if_neg (by norm_num [highConfidenceThreshold])]
    exact ih (fun a' ha' => h a' (List.mem_cons_of_mem a ha'))

end OCR

/-- **C3.** `readScaleWeight` never throws: it is a total function of the
attempt ladder.  When an irrecoverable processing error occurs (the outer
`catch`), it returns the confidence-0 sentinel carrying the error message in
`rawText`; when no preprocessing variant yields a candidate (every attempt
threw, was below the minimum pass confidence, or parsed to no candidates),
it returns the confidence-0 sentinel with the human-readable unreadable
marker. -/
theorem C3_read_scale_weight_sentinels :
    (∀ e : String, OCR.readScaleWeight (.error e) =
      ⟨0, .g, 0, "OCR Error: " ++ e⟩) ∧
    (∀ attempts : List (Except String OCR.OCRPass),
      (∀ a ∈ attempts, OCR.attemptYieldsNoCandidate a) →
      OCR.readScaleWeight (.ok attempts) =
        ⟨0, .g, 0, "Unable to read scale display"⟩) := by
  constructor
  · intro e
    rfl
  · intro attempts h
    simp only [OCR.readScaleWeight, OCR.runAttempts_of_noCandidate h]

/-- Witness for C3: a ladder whose attempts throw, score 50 (below the
minimum pass threshold 60), and recognize no candidates falls back to the
unreadable sentinel. -/
theorem C3_read_scale_weight_sentinels_witness :
    OCR.readScaleWeight (.ok
      [.error "sharp crashed",
       .ok ⟨"noise", 50, [], [⟨"12", "12", some 12, ""⟩]⟩,
       .ok ⟨"blank", 90, [], []⟩]) =
      ⟨0, .g, 0, "Unable to read scale display"⟩ := by
  refine C3_read_scale_weight_sentinels.2 _ ?_
  intro a ha
  simp only [List.mem_cons, List.not_mem_nil, or_false] at ha
  rcases ha with rfl | rfl | rfl
  · trivial
  · left
    norm_num [OCR.minConfidenceThreshold]
  · right
    rfl

/-- **C4.** In the retry ladder of `readScaleWeight`: an attempt whose
whole-pass recognizer confidence is below the minimum threshold (60)
contributes nothing to the running best, and once the running best
confidence reaches the high-confidence threshold (80) after an attempt, the
loop stops — the remaining attempts are not executed and cannot override
the recorded best, whatever they contain. -/
theorem C4_retry_ladder_thresholds :
    (∀ (best : Option OCR.WeightReading × ℚ) (r : OCR.OCRPass),
      r.confidence < OCR.minConfidenceThreshold →
      OCR.stepAttempt best (.ok r) = best) ∧
    (∀ (best : Option OCR.WeightReading × ℚ) (a : Except String OCR.OCRPass)
        (rest : List (Except String OCR.OCRPass)),
      OCR.highConfidenceThreshold ≤ (OCR.stepAttempt best a).2 →
      OCR.runAttempts best (a :: rest) = OCR.stepAttempt best a) ∧
    (∀ (best : Option OCR.WeightReading × ℚ) (a : Except String OCR.OCRPass)
        (rest rest' : List (Except String OCR.OCRPass)),
      OCR.highConfidenceThreshold ≤ (OCR.stepAttempt best a).2 →
      OCR.runAttempts best (a :: rest) = OCR.runAttempts best (a :: rest')) := by
  have h2 : ∀ (best : Option OCR.WeightReading × ℚ) (a : Except String OCR.OCRPass)
      (rest : List (Except String OCR.OCRPass)),
      OCR.highConfidenceThreshold ≤ (OCR.stepAttempt best a).2 →
      OCR.runAttempts best (a :: rest) = OCR.stepAttempt best a := by
    intro best a rest h
    simp only [OCR.runAttempts]
    rw [if_pos h]
  refine ⟨?_, h2, ?_⟩
  · intro best r h
    simp only [OCR.stepAttempt, if_pos h]
  · intro best a rest rest' h
    rw [h2 best a rest h, h2 best a rest' h]

/-- Witness for C4: a pass at confidence 50 is skipped, and a first attempt
reading "100 g" at pass confidence 85 (candidate confidence 95 ≥ 80) stops
the ladder, so the result does not depend on the remaining attempts. -/
theorem C4_retry_ladder_thresholds_witness :
    OCR.stepAttempt (none, 0) (.ok ⟨"noise", 50, [], [⟨"999", "999", some 999, ""⟩]⟩) =
      (none, 0) ∧
    OCR.runAttempts (none, 0)
      [.ok ⟨"100 g", 85, [], [⟨"100 g", "100", some 100, "g"⟩]⟩,
       .ok ⟨"9999 g", 99, [], [⟨"9999 g", "9999", some 9999, "g"⟩]⟩] =
    OCR.stepAttempt (none, 0) (.ok ⟨"100 g", 85, [], [⟨"100 g", "100", some 100, "g"⟩]⟩) := by
  constructor
  · exact C4_retry_ladder_thresholds.1 (none, 0) _ (by norm_num [OCR.minConfidenceThreshold])
  · refine C4_retry_ladder_thresholds.2.1 (none, 0) _ _ ?_
    simp [OCR.stepAttempt, OCR.extractWeightFromText, OCR.selectBestWeight,
      OCR.sortWeights, OCR.insertCmp, OCR.unitMappings, OCR.minConfidenceThreshold,
      OCR.highConfidenceThreshold, Conversions.jsRound]
    norm_num

namespace OCR

theorem mem_insertCmp {x y : WeightReading} {l : List WeightReading}
    (h : x ∈ insertCmp y l) : x = y ∨ x ∈ l := by
  induction l with
  | nil =>
    simp only [insertCmp, List.mem_singleton] at h
    exact Or.inl h
  | cons z zs ih =>
    simp only [insertCmp] at h
    split_ifs at h
    · simpa using h
    · rcases List.mem_cons.mp h with rfl | h'
      · right
        exact List.mem_cons_self x zs
      · rcases ih h' with rfl | h''
        · exact Or.inl rfl
        · right
          exact List.mem_cons_of_mem z h''

theorem mem_sortWeights {x : WeightReading} {l : List WeightReading}
    (h : x ∈ sortWeights l) : x ∈ l := by
  induction l with
  | nil => simp [sortWeights] at h
  | cons y ys ih =>
    simp only [sortWeights] at h
    rcases mem_insertCmp h with rfl | h'
    · exact List.mem_cons_self x ys
    · exact List.mem_cons_of_mem y (ih h')

theorem insertCmp_ne_nil (x : WeightReading) (l : List WeightReading) :
    insertCmp x l ≠ [] := by
  cases l with
  | nil => simp [insertCmp]
  | cons y ys =>
    simp only [insertCmp]
    split_ifs <;> simp

theorem selectBestWeight_pair (a b : WeightReading) :
    selectBestWeight [a, b] =
      if compareWeights a b ≤ 0 then some a else some b := by
  simp only [selectBestWeight, sortWeights, insertCmp]
  split_ifs <;> rfl

end OCR

/-- **C5.** `selectBestWeight` returns `none` exactly on the empty list and
otherwise some member of its input.  Between two candidates it decides by
confidence alone only when the confidences differ by more than 10 points;
within 10 points the candidate whose (value, unit) lies in its unit's
plausibility window is preferred, and raw confidence is the final
tiebreaker; in particular, of a 70-confidence in-range candidate and a
75-confidence out-of-range candidate, the in-range one is returned in
either input order. -/
theorem C5_select_best_weight :
    (OCR.selectBestWeight [] = none) ∧
    (∀ l : List OCR.WeightReading, l ≠ [] →
      ∃ w, OCR.selectBestWeight l = some w ∧ w ∈ l) ∧
    (∀ a b : OCR.WeightReading, 10 < |a.confidence - b.confidence| →
      OCR.selectBestWeight [a, b] =
        some (if b.confidence < a.confidence then a else b)) ∧
    (∀ a b : OCR.WeightReading, |a.confidence - b.confidence| ≤ 10 →
      OCR.isReasonableWeight a.value a.unit = true →
      OCR.isReasonableWeight b.value b.unit = false →
      OCR.selectBestWeight [a, b] = some a) ∧
    (∀ a b : OCR.WeightReading, |a.confidence - b.confidence| ≤ 10 →
      OCR.isReasonableWeight a.value a.unit = false →
      OCR.isReasonableWeight b.value b.unit = true →
      OCR.selectBestWeight [a, b] = some b) ∧
    (∀ a b : OCR.WeightReading, |a.confidence - b.confidence| ≤ 10 →
      OCR.isReasonableWeight a.value a.unit = OCR.isReasonableWeight b.value b.unit →
      OCR.selectBestWeight [a, b] =
        some (if b.confidence ≤ a.confidence then a else b)) ∧
    (OCR.selectBestWeight [⟨100, .g, 70, "100 g"⟩, ⟨6000, .g, 75, "6000"⟩] =
        some ⟨100, .g, 70, "100 g"⟩ ∧
     OCR.selectBestWeight [⟨6000, .g, 75, "6000"⟩, ⟨100, .g, 70, "100 g"⟩] =
        some ⟨100, .g, 70, "100 g"⟩) := by
  have hpair := OCR.selectBestWeight_pair
  refine ⟨rfl, ?_, ?_, ?_, ?_, ?_, ?_, ?_⟩
  · intro l hl
    obtain ⟨x, xs, rfl⟩ := List.exists_cons_of_ne_nil hl
    obtain ⟨w, t, hwt⟩ :=
      List.exists_cons_of_ne_nil (OCR.insertCmp_ne_nil x (OCR.sortWeights xs))
    refine ⟨w, ?_, ?_⟩
    · simp only [OCR.selectBestWeight, OCR.sortWeights, hwt, List.head?_cons]
    · refine OCR.mem_sortWeights ?_
      show w ∈ OCR.sortWeights (x :: xs)
      simp only [OCR.sortWeights, hwt]
      exact List.mem_cons_self w t
  · intro a b h
    rw [hpair, OCR.compareWeights, if_pos h]
    by_cases hba : b.confidence < a.confidence
    · rw [if_pos (by linarith), if_pos hba]
    · have hne : a.confidence ≠ b.confidence := by
        intro he
        rw [he, sub_self, abs_zero] at h
        linarith
      have hab : a.confidence < b.confidence := lt_of_le_of_ne (not_lt.mp hba) hne
      rw [if_neg (by linarith), if_neg hba]
  · intro a b h ha hb
    rw [hpair, OCR.compareWeights, if_neg (not_lt.mpr h)]
    simp only [ha, hb, Bool.not_false, Bool.and_self, Bool.not_true, Bool.and_false,
      if_true, if_false]
    rw [if_pos (by norm_num)]
  · intro a b h ha hb
    rw [hpair, OCR.compareWeights, if_neg (not_lt.mpr h)]
    simp only [ha, hb, Bool.not_false, Bool.not_true, Bool.false_and, Bool.and_true,
      if_false, if_true]
    rw [if_neg (by norm_num)]
  · intro a b h heq
    rw [hpair, OCR.compareWeights, if_neg (not_lt.mpr h)]
    have hcond1 : (OCR.isReasonableWeight a.value a.unit &&
        !OCR.isReasonableWeight b.value b.unit) = false := by
      cases hra : OCR.isReasonableWeight a.value a.unit <;> rw [hra] at heq <;>
        simp [← heq]
    have hcond2 : (!OCR.isReasonableWeight a.value a.unit &&
        OCR.isReasonableWeight b.value b.unit) = false := by
      cases hra : OCR.isReasonableWeight a.value a.unit <;> rw [hra] at heq <;>
        simp [← heq]
    simp only [hcond1, hcond2, Bool.false_eq_true, if_false]
    by_cases hba : b.confidence ≤ a.confidence
    · rw [if_pos (by linarith), if_pos hba]
    · rw [if_neg (fun hc => hba (by linarith)), if_neg hba]
  · rw [hpair]
    norm_num [OCR.compareWeights, OCR.isReasonableWeight]
  · rw [hpair]
    norm_num [OCR.compareWeights, OCR.isReasonableWeight]

/-- Witness for C5: a two-candidate list — 70-confidence in-range 100 g
versus 75-confidence out-of-range 6000 g — returns the in-range candidate,
by the within-10-points plausibility rule. -/
theorem C5_select_best_weight_witness :
    OCR.selectBestWeight [⟨100, .g, 70, "100g"⟩, ⟨6000, .g, 75, "6000g"⟩] =
      some ⟨100, .g, 70, "100g"⟩ :=
  C5_select_best_weight.2.2.2.1 ⟨100, .g, 70, "100g"⟩ ⟨6000, .g, 75, "6000g"⟩
    (by norm_num) (by norm_num [OCR.isReasonableWeight])
    (by norm_num [OCR.isReasonableWeight])

/-- **C6 (amended).** Every candidate parsed from recognized text carries a
confidence equal to the recognizer's text-level confidence adjusted in this
order: +10 capped at 100 when a recognized unit token is present; −20
floored at 0 when the raw numeric value in the candidate's own unit is
outside the plausible range (below 0.1 or above 10,000); then averaged with
the word-level confidence of the first recognized word with positive
confidence containing the matched number string, when one exists; finally
rounded to the nearest integer.  Non-positive or non-numeric matches are
rejected, and a match with no (mappable) unit token defaults to grams.
Stated as: the source extractor coincides with the extractor written from
the specification's wording. -/
theorem C6_extract_candidate_confidence (r : OCR.OCRPass) :
    OCR.extractWeightFromText r = OCR.specExtractWeights r := by
  unfold OCR.extractWeightFromText OCR.specExtractWeights
  congr 1
  funext m
  cases hmv : m.numberVal with
  | none => simp [OCR.specCandidate, hmv]
  | some v =>
    simp only [OCR.specCandidate, hmv]
    by_cases hv : v ≤ 0
    · rw [if_pos hv, if_neg (not_lt.mpr hv)]
    · rw [if_neg hv, if_pos (lt_of_not_le hv)]
      by_cases hu : m.unitStr = ""
      · have hmap0 : OCR.unitMappings "" = none := rfl
        simp [hu, hmap0, or_comm]
      · cases hmap : OCR.unitMappings m.unitStr with
        | none => simp [hu, hmap, or_comm]
        | some u0 => simp [hu, hmap, or_comm]

/-- **C6 counterexample.** The claim measures the plausibility range in the
candidate's grams-equivalent; the code tests the raw value in its own unit.
On the pass "500 oz" at text confidence 50 (500 oz ≈ 14 175 g, outside the
10 000 range when measured in grams but inside it as a raw value), the code
yields confidence 60 for the ounce candidates where the claim's reading
demands 40, so the two extractors disagree. -/
theorem C6_counterexample_grams_range :
    ((OCR.extractWeightFromText
        ⟨"500 oz", 50, [],
         [⟨"500 oz", "500", some 500, "oz"⟩, ⟨"500 oz", "500", some 500, "oz"⟩,
          ⟨"500", "500", some 500, ""⟩]⟩).map (fun w => w.confidence) = [60, 60, 50]) ∧
    ((OCR.specExtractGramsRange
        ⟨"500 oz", 50, [],
         [⟨"500 oz", "500", some 500, "oz"⟩, ⟨"500 oz", "500", some 500, "oz"⟩,
          ⟨"500", "500", some 500, ""⟩]⟩).map (fun w => w.confidence) = [40, 40, 50]) ∧
    OCR.extractWeightFromText
        ⟨"500 oz", 50, [],
         [⟨"500 oz", "500", some 500, "oz"⟩, ⟨"500 oz", "500", some 500, "oz"⟩,
          ⟨"500", "500", some 500, ""⟩]⟩ ≠
      OCR.specExtractGramsRange
        ⟨"500 oz", 50, [],
         [⟨"500 oz", "500", some 500, "oz"⟩, ⟨"500 oz", "500", some 500, "oz"⟩,
          ⟨"500", "500", some 500, ""⟩]⟩ := by
  have hA : (OCR.extractWeightFromText
      ⟨"500 oz", 50, [],
       [⟨"500 oz", "500", some 500, "oz"⟩, ⟨"500 oz", "500", some 500, "oz"⟩,
        ⟨"500", "500", some 500, ""⟩]⟩).map (fun w => w.confidence) = [60, 60, 50] := by
    have hoz : OCR.unitMappings "oz" = some .oz := rfl
    have hnil : OCR.unitMappings "" = none := rfl
    have hne : ("oz" : String) ≠ "" := by decide
    norm_num [OCR.extractWeightFromText, hoz, hnil, hne, List.filterMap_cons,
      Conversions.jsRound, min_def, max_def]
  have hB : (OCR.specExtractGramsRange
      ⟨"500 oz", 50, [],
       [⟨"500 oz", "500", some 500, "oz"⟩, ⟨"500 oz", "500", some 500, "oz"⟩,
        ⟨"500", "500", some 500, ""⟩]⟩).map (fun w => w.confidence) = [40, 40, 50] := by
    have hoz : OCR.unitMappings "oz" = some .oz := rfl
    have hnil : OCR.unitMappings "" = none := rfl
    norm_num [OCR.specExtractGramsRange, OCR.specCandidateGramsRange, hoz, hnil,
      List.filterMap_cons, Conversions.jsRound, Conversions.convertToGrams,
      min_def, max_def]
  refine ⟨hA, hB, fun heq => ?_⟩
  have hmap := congrArg (List.map (fun w => w.confidence)) heq
  rw [hA, hB] at hmap
  norm_num at hmap
